import Mathlib

/-!
Verification development for the tensor view/buffer core (`src/tensor.rs`) and
the parameter-store loader (`src/params.rs`) of the learning-lm-rs repository.

The Rust code is embedded shallowly:
* `Arc<Box<[T]>>` buffers become plain `List α` values; aliasing ("sharing the
  buffer") is expressed as equality of the `data` fields.
* `usize` becomes `Nat` (no overflow concerns arise in the covered code).
* Panicking operations (`panic!`, `assert!`, `.expect`, `try_into().unwrap()`)
  become `Option`/`Except` failures.
* `f32` element values are never inspected by any covered property, so the
  element type is kept abstract (`α`), and the byte-to-element decoding step of
  the loader is a parameter `dec`.
-/

set_option maxHeartbeats 1000000

/-- Mirrors `struct Tensor<T>` from tensor.rs: a view (`shape`, `offset`,
`length`) over a shared buffer (`data: Arc<Box<[T]>>`). -/
structure Tensor (α : Type) where
  data : List α
  shape : List Nat
  offset : Nat
  length : Nat
deriving Repr, DecidableEq

/-- Mirrors `compute_strides` from tensor.rs: row-major strides, i.e.
`strides[i]` is the product of `shape[i+1..]`; the last axis has stride 1.
The Rust code builds this with a reverse loop carrying a running product. -/
def compute_strides : List Nat → List Nat
  | [] => []
  | _ :: rest => rest.prod :: compute_strides rest

/-- Mirrors `compute_index` from tensor.rs: decompose a flat index into a
per-axis multi-index by successive division/remainder with the strides. -/
def compute_index : Nat → List Nat → List Nat
  | _, [] => []
  | index, s :: rest => index / s :: compute_index (index % s) rest

/-- Mirrors `compute_flat_index` from tensor.rs: recompose a multi-index into
a flat index as the dot product with the strides. -/
def compute_flat_index (indexs strides : List Nat) : Nat :=
  (List.zipWith (fun a b => a * b) indexs strides).sum

namespace Tensor

variable {α : Type}

/-- Mirrors `Tensor::new`: wraps the data with the given shape, offset 0 and
`length = data.len()`. Note the Rust code performs no check relating
`product(shape)` to `data.len()` (the `try_into().unwrap()` there converts
`Box<[T]>` to `Box<[T]>` and cannot fail). -/
def new (data : List α) (shape : List Nat) : Tensor α :=
  { data := data, shape := shape, offset := 0, length := data.length }

/-- Mirrors `Tensor::size` (returns the view length). -/
def size (t : Tensor α) : Nat := t.length

/-- Mirrors the accessor `Tensor::data`: the slice
`&self.data[self.offset..][..self.length]` of the shared buffer. -/
def dataView (t : Tensor α) : List α := (t.data.drop t.offset).take t.length

/-- Mirrors `Tensor::default`: a buffer of `product(shape)` default elements
(the default element is passed explicitly here). -/
def defaultOf (d : α) (shape : List Nat) : Tensor α :=
  Tensor.new (List.replicate shape.prod d) shape

/-- Mirrors `Tensor::clone`: a new view sharing the same buffer, shape, offset
and length (an `Arc` clone; no element copy). -/
def clone (t : Tensor α) : Tensor α :=
  { data := t.data, shape := t.shape, offset := t.offset, length := t.length }

/-- Mirrors `Tensor::reshape`: in-place metadata change; the Rust `panic!` on
`product(new_shape) != length` is modelled as `none`. -/
def reshape (t : Tensor α) (new_shape : List Nat) : Option (Tensor α) :=
  if new_shape.prod = t.length then some { t with shape := new_shape } else none

/-- Mirrors `Tensor::slice`: a new view over the same buffer starting at
`offset + start` with `product(shape)` elements; the Rust
`assert!(self.offset + start + new_length <= self.length)` is modelled as
`none` on failure. -/
def slice (t : Tensor α) (start : Nat) (shape : List Nat) : Option (Tensor α) :=
  if t.offset + start + shape.prod ≤ t.length then
    some { data := t.data, shape := shape, offset := t.offset + start, length := shape.prod }
  else none

end Tensor

/-- Mirrors the `new_shape` loop of `Tensor::transpose`:
`new_shape[i] = l[perm[i]]` for `i` below `l.len()` (out-of-range reads, which
panic in Rust, default to 0 here and are excluded by the bounds predicate). -/
def permuteBy (perm l : List Nat) : List Nat :=
  (List.range l.length).map fun i => l.getD (perm.getD i 0) 0

/-- Mirrors the `new_index` loop of `Tensor::transpose`: starts from a zero
vector of the same length as `old_index` and writes
`new_index[perm[j]] = old_index[j]` for each `j` (a scatter by `perm`). -/
def scatterIndex (perm old_index : List Nat) : List Nat :=
  (List.range old_index.length).foldl
    (fun acc j => acc.set (perm.getD j 0) (old_index.getD j 0))
    (List.replicate old_index.length 0)

/-- The flat destination position that `Tensor::transpose` computes for source
flat position `i` over a tensor of the given shape: `old_index =
compute_index(i, old_strides)`, then the scatter `new_index[perm[j]] =
old_index[j]`, then `compute_flat_index(new_index, new_strides)`, where
`old_strides`/`new_strides` are the row-major strides of the source and
permuted shapes. -/
def transposeFlatMap (shape perm : List Nat) (i : Nat) : Nat :=
  compute_flat_index (scatterIndex perm (compute_index i (compute_strides shape)))
    (compute_strides (permuteBy perm shape))

/-- A loop writing `acc[f i] = v i` for each `i` in the index list, as Rust
`for` loops over `0..n` assigning into a `Vec` (an out-of-range `List.set` is
a no-op where Rust would panic; the bounds predicates track that case). -/
def writeLoop (f : Nat → Nat) (v : Nat → α) (l : List Nat) (acc : List α) : List α :=
  l.foldl (fun a i => a.set (f i) (v i)) acc

namespace Tensor

variable {α : Type}

/-- Mirrors `Tensor::transpose` line by line: `new_shape[i] = shape[perm[i]]`
is `permuteBy perm t.shape`; the fresh buffer is `self.data.len()` (the full
backing buffer length, exactly as in the source) default elements; the loop
over `i in 0..self.size()` writes the view element `data[i]` at the position
`transposeFlatMap t.shape perm i`, which performs the source's per-iteration
`compute_index` / scatter-by-`perm` / `compute_flat_index` steps; the result
is `Tensor::new` of the new buffer and the permuted shape. -/
def transpose (t : Tensor α) (dflt : α) (perm : List Nat) : Tensor α :=
  Tensor.new
    (writeLoop (transposeFlatMap t.shape perm) (fun i => t.dataView.getD i dflt)
      (List.range t.size) (List.replicate t.data.length dflt))
    (permuteBy perm t.shape)

end Tensor

/-- All buffer/vector accesses performed by `Tensor::transpose` are in bounds:
`perm` is long enough to be indexed at each axis, each `perm[i]` is a valid
axis (this bounds both the `shape[perm[i]]` reads and the
`new_index[perm[j]]` writes), each read `data[i]` of the view is in bounds,
and each write `new_data[new_flat_index]` lands inside the freshly allocated
buffer of `self.data.len()` elements. -/
def transposeInBounds (t : Tensor α) (perm : List Nat) : Prop :=
  t.shape.length ≤ perm.length ∧
  (∀ i < t.shape.length, perm.getD i 0 < t.shape.length) ∧
  (∀ i < t.size, i < t.dataView.length ∧ transposeFlatMap t.shape perm i < t.data.length)

instance (t : Tensor α) (perm : List Nat) : Decidable (transposeInBounds t perm) := by
  unfold transposeInBounds
  infer_instance

/-- The spec's notion of a valid permutation of the axis indices `0..n`:
one entry per dimension, each axis index used exactly once. -/
def validPerm (perm : List Nat) (n : Nat) : Prop :=
  perm.length = n ∧ (∀ x ∈ perm, x < n) ∧ perm.Nodup

instance (perm : List Nat) (n : Nat) : Decidable (validPerm perm n) := by
  unfold validPerm
  infer_instance

/-- A self-inverse permutation: `perm[perm[j]] = j` for every axis `j`. -/
def involutivePerm (perm : List Nat) (n : Nat) : Prop :=
  ∀ j < n, perm.getD (perm.getD j 0) 0 = j

instance (perm : List Nat) (n : Nat) : Decidable (involutivePerm perm n) := by
  unfold involutivePerm
  infer_instance

/-- A multi-index is componentwise strictly below a shape (same rank). -/
def ValidIdx : List Nat → List Nat → Prop
  | [], [] => True
  | a :: m, d :: s => a < d ∧ ValidIdx m s
  | _, [] => False
  | [], _ => False

/-- The dtype tags of the external safetensors crate's `Dtype` enum (the
subset of variants is irrelevant; the loader only compares against `F32`). -/
inductive Dtype
  | BOOL | U8 | I8 | I16 | U16 | F16 | BF16 | I32 | U32 | F32 | F64 | I64 | U64
deriving DecidableEq, Repr

/-- What the external `SafeTensors::tensor(name)` lookup yields on success: a
declared dtype, a shape, and a raw byte payload (bytes modelled as `Nat`). -/
structure STView where
  dtype : Dtype
  shape : List Nat
  data : List Nat
deriving DecidableEq, Repr

/-- The loader's failure modes, one per `panic!`/`expect` site in
`LLamaParams::from_safetensors`: a missing name, a dtype other than `F32`,
and a byte payload whose length is not a multiple of 4 (the
`b.try_into().unwrap()` panic when a 4-byte chunk is short). -/
inductive LoadError
  | missingTensor (name : String)
  | dtypeMismatch (name : String) (found : Dtype)
  | byteChunkError (name : String)
deriving DecidableEq, Repr

/-- Mirrors `tensor_view.data().chunks(4)`: splits the byte list into
consecutive chunks of 4 (a final short chunk is kept, as with Rust's
`chunks`, and rejected by the caller's conversion). -/
def chunks4 : List Nat → List (List Nat)
  | [] => []
  | a :: l => ((a :: l).take 4) :: chunks4 ((a :: l).drop 4)
termination_by l => l.length
decreasing_by
  simp only [List.length_drop, List.length_cons]
  omega

/-- Modelled from the spec: `config.rs` is not among the covered sources. The
spec requires the configuration to carry at least `num_layers`; only that
field matters to the covered claims, and the covered loader never reads it. -/
structure LlamaConfigJson where
  num_layers : Nat
deriving DecidableEq, Repr

/-- Mirrors `struct LLamaParams<T>` from params.rs. -/
structure LLamaParams (α : Type) where
  embedding_table : Tensor α
  rms_att_w : List (Tensor α)
  wq : List (Tensor α)
  wk : List (Tensor α)
  wv : List (Tensor α)
  wo : List (Tensor α)
  rms_ffn_w : List (Tensor α)
  w_up : List (Tensor α)
  w_gate : List (Tensor α)
  w_down : List (Tensor α)
  rms_out_w : Tensor α
  lm_head : Tensor α
deriving Repr

/-- Mirrors the `get_tensor` closure in `LLamaParams::from_safetensors`.
The safetensors bundle is a lookup function; the `f32::from_le_bytes`
decoding of each 4-byte chunk is abstracted into `dec` (no covered claim
depends on element values). Panics become `Except.error`. -/
def get_tensor (st : String → Option STView) (dec : List Nat → α) (name : String) :
    Except LoadError (Tensor α) :=
  match st name with
  | none => Except.error (LoadError.missingTensor name)
  | some v =>
    if v.dtype = Dtype.F32 then
      if v.data.length % 4 = 0 then
        Except.ok (Tensor.new ((chunks4 v.data).map dec) v.shape)
      else Except.error (LoadError.byteChunkError name)
    else Except.error (LoadError.dtypeMismatch name v.dtype)

/-- Mirrors `LLamaParams::from_safetensors`, with the lookups sequenced in the
evaluation order of the Rust struct literal. As in the source, the layer
indices 0 and 1 are hardcoded literals and the configuration is never read. -/
def from_safetensors (st : String → Option STView) (dec : List Nat → α)
    (_config : LlamaConfigJson) : Except LoadError (LLamaParams α) := do
  let embedding_table ← get_tensor st dec ("lm_head.weight")
  let ra0 ← get_tensor st dec ("model.layers.0.input_layernorm.weight")
  let ra1 ← get_tensor st dec ("model.layers.1.input_layernorm.weight")
  let q0 ← get_tensor st dec ("model.layers.0.self_attn.q_proj.weight")
  let q1 ← get_tensor st dec ("model.layers.1.self_attn.q_proj.weight")
  let k0 ← get_tensor st dec ("model.layers.0.self_attn.k_proj.weight")
  let k1 ← get_tensor st dec ("model.layers.1.self_attn.k_proj.weight")
  let v0 ← get_tensor st dec ("model.layers.0.self_attn.v_proj.weight")
  let v1 ← get_tensor st dec ("model.layers.1.self_attn.v_proj.weight")
  let o0 ← get_tensor st dec ("model.layers.0.self_attn.o_proj.weight")
  let o1 ← get_tensor st dec ("model.layers.1.self_attn.o_proj.weight")
  let f0 ← get_tensor st dec ("model.layers.0.post_attention_layernorm.weight")
  let f1 ← get_tensor st dec ("model.layers.1.post_attention_layernorm.weight")
  let u0 ← get_tensor st dec ("model.layers.0.mlp.up_proj.weight")
  let u1 ← get_tensor st dec ("model.layers.1.mlp.up_proj.weight")
  let g0 ← get_tensor st dec ("model.layers.0.mlp.gate_proj.weight")
  let g1 ← get_tensor st dec ("model.layers.1.mlp.gate_proj.weight")
  let d0 ← get_tensor st dec ("model.layers.0.mlp.down_proj.weight")
  let d1 ← get_tensor st dec ("model.layers.1.mlp.down_proj.weight")
  let rms_out_w ← get_tensor st dec ("model.norm.weight")
  let lm_head ← get_tensor st dec ("lm_head.weight")
  pure {
    embedding_table := embedding_table,
    rms_att_w := [ra0, ra1],
    wq := [q0, q1],
    wk := [k0, k1],
    wv := [v0, v1],
    wo := [o0, o1],
    rms_ffn_w := [f0, f1],
    w_up := [u0, u1],
    w_gate := [g0, g1],
    w_down := [d0, d1],
    rms_out_w := rms_out_w,
    lm_head := lm_head }

/-- A concrete 2×3×4 tensor (full view, offset 0) used to exhibit the
behaviour of `transpose` under the non-involutive permutation `[1, 2, 0]`. -/
def T234 : Tensor Nat :=
  Tensor.new [1, 2, 3, 4, 5, 6, 7, 8, 9, 10, 11, 12,
    13, 14, 15, 16, 17, 18, 19, 20, 21, 22, 23, 24] [2, 3, 4]

/-- A bundle in which every name resolves to a small `F32` tensor view. -/
def constBundle : String → Option STView :=
  fun _ => some { dtype := Dtype.F32, shape := [1], data := [7, 7, 7, 7] }

/-- A bundle that lacks exactly `"model.layers.1.self_attn.k_proj.weight"`
and resolves every other name to a small `F32` tensor view. -/
def bundleMissingK1 : String → Option STView := fun name =>
  if name = ("model.layers.1.self_attn.k_proj.weight") then none
  else some { dtype := Dtype.F32, shape := [1], data := [7, 7, 7, 7] }

/-- The names `from_safetensors` requests, in evaluation order, before it
first requests `"model.layers.1.self_attn.k_proj.weight"`. -/
def earlierNames : List String :=
  [("lm_head.weight"),
   ("model.layers.0.input_layernorm.weight"),
   ("model.layers.1.input_layernorm.weight"),
   ("model.layers.0.self_attn.q_proj.weight"),
   ("model.layers.1.self_attn.q_proj.weight"),
   ("model.layers.0.self_attn.k_proj.weight")]

section Helpers

variable {α : Type}

theorem foldl_set_length (l : List Nat) (f : Nat → Nat) (v : Nat → α) (acc : List α) :
    (l.foldl (fun a i => a.set (f i) (v i)) acc).length = acc.length := by
  induction l generalizing acc with
  | nil => rfl
  | cons a rest ih =>
    simp only [List.foldl_cons]
    rw [ih]
    exact List.length_set ..

theorem foldl_set_getD_of_agree (l : List Nat) (f : Nat → Nat) (v : Nat → α) (acc : List α)
    (q : Nat) (d w : α) (hq : acc.getD q d = w)
    (hagree : ∀ i ∈ l, f i = q → v i = w) :
    (l.foldl (fun a i => a.set (f i) (v i)) acc).getD q d = w := by
  induction l generalizing acc with
  | nil => simpa using hq
  | cons a rest ih =>
    simp only [List.foldl_cons]
    apply ih
    · rw [List.getD_eq_getElem?_getD, List.getElem?_set]
      by_cases hfa : f a = q
      · by_cases hlt : f a < acc.length
        · simp only [hfa, if_pos rfl, if_pos (hfa ▸ hlt), Option.getD_some]
          exact hagree a (List.mem_cons_self ..) hfa
        · have hge : acc.length ≤ q := by omega
          simp only [hfa, if_pos rfl, if_neg (hfa ▸ hlt), Option.getD_none]
          rw [List.getD_eq_default _ _ hge] at hq
          exact hq
      · simp only [if_neg hfa]
        rw [← List.getD_eq_getElem?_getD]
        exact hq
    · exact fun i hi hfi => hagree i (List.mem_cons_of_mem _ hi) hfi

theorem foldl_set_getD (l : List Nat) (f : Nat → Nat) (v : Nat → α) (acc : List α)
    (d : α) (j : Nat) (hj : j ∈ l) (hlen : f j < acc.length)
    (huniq : ∀ i ∈ l, f i = f j → v i = v j) :
    (l.foldl (fun a i => a.set (f i) (v i)) acc).getD (f j) d = v j := by
  induction l generalizing acc with
  | nil => cases hj
  | cons a rest ih =>
    simp only [List.foldl_cons]
    by_cases haj : f a = f j
    · apply foldl_set_getD_of_agree
      · rw [List.getD_eq_getElem?_getD, List.getElem?_set]
        simp only [haj, if_pos rfl, if_pos hlen, Option.getD_some]
        exact huniq a (List.mem_cons_self ..) haj
      · exact fun i hi hfi => huniq i (List.mem_cons_of_mem _ hi) hfi
    · have hj' : j ∈ rest := by
        cases hj with
        | head => exact absurd rfl haj
        | tail _ h => exact h
      exact ih (acc.set (f a) (v a)) hj' (by rw [List.length_set]; exact hlen)
        (fun i hi hfi => huniq i (List.mem_cons_of_mem _ hi) hfi)

end Helpers

section IndexMachinery

theorem compute_strides_length (shape : List Nat) :
    (compute_strides shape).length = shape.length := by
  induction shape with
  | nil => rfl
  | cons d s ih => simpa [compute_strides] using ih

theorem compute_index_length (k : Nat) (strides : List Nat) :
    (compute_index k strides).length = strides.length := by
  induction strides generalizing k with
  | nil => rfl
  | cons s rest ih => simp [compute_index, ih]

theorem compute_flat_index_cons (a s : Nat) (m t : List Nat) :
    compute_flat_index (a :: m) (s :: t) = a * s + compute_flat_index m t := by
  simp [compute_flat_index]

theorem compute_flat_index_nil (t : List Nat) : compute_flat_index [] t = 0 := by
  simp [compute_flat_index]

theorem validIdx_nil_left (s : List Nat) : ValidIdx [] s ↔ s = [] := by
  cases s <;> simp [ValidIdx]

theorem validIdx_cons {a d : Nat} {m s : List Nat} :
    ValidIdx (a :: m) (d :: s) ↔ a < d ∧ ValidIdx m s := Iff.rfl

theorem validIdx_not_nil_right {a : Nat} {m : List Nat} : ¬ ValidIdx (a :: m) [] := by
  simp [ValidIdx]

theorem validIdx_length {m shape : List Nat} (h : ValidIdx m shape) :
    m.length = shape.length := by
  induction m generalizing shape with
  | nil => rw [(validIdx_nil_left shape).mp h]
  | cons a m' ih =>
    cases shape with
    | nil => exact absurd h validIdx_not_nil_right
    | cons d s => simpa using ih h.2

theorem flat_decompose (shape : List Nat) (k : Nat) (hk : k < shape.prod) :
    compute_flat_index (compute_index k (compute_strides shape)) (compute_strides shape) = k := by
  induction shape generalizing k with
  | nil =>
    simp only [List.prod_nil, Nat.lt_one_iff] at hk
    simp [hk, compute_strides, compute_index, compute_flat_index]
  | cons dd s ih =>
    rw [List.prod_cons] at hk
    have hp : 0 < s.prod := by
      rcases Nat.eq_zero_or_pos s.prod with h0 | h
      · rw [h0, Nat.mul_zero] at hk; omega
      · exact h
    simp only [compute_strides, compute_index, compute_flat_index_cons]
    rw [ih (k % s.prod) (Nat.mod_lt _ hp)]
    exact Nat.div_add_mod' k s.prod

theorem decompose_valid (shape : List Nat) (k : Nat) (hk : k < shape.prod) :
    ValidIdx (compute_index k (compute_strides shape)) shape := by
  induction shape generalizing k with
  | nil => simp [compute_strides, compute_index, ValidIdx]
  | cons dd s ih =>
    rw [List.prod_cons] at hk
    have hp : 0 < s.prod := by
      rcases Nat.eq_zero_or_pos s.prod with h0 | h
      · rw [h0, Nat.mul_zero] at hk; omega
      · exact h
    refine ⟨?_, ih (k % s.prod) (Nat.mod_lt _ hp)⟩
    exact Nat.div_lt_of_lt_mul (by rw [Nat.mul_comm]; exact hk)

theorem flat_bound (shape m : List Nat) (hm : ValidIdx m shape) :
    compute_flat_index m (compute_strides shape) < shape.prod := by
  induction shape generalizing m with
  | nil =>
    cases m with
    | nil => simp [compute_flat_index, compute_strides]
    | cons a m' => exact absurd hm validIdx_not_nil_right
  | cons dd s ih =>
    cases m with
    | nil => exact absurd hm (by simp [ValidIdx])
    | cons a m' =>
      obtain ⟨ha, hm'⟩ := hm
      have h' := ih m' hm'
      simp only [compute_strides, compute_flat_index_cons, List.prod_cons]
      have h1 : a * s.prod + compute_flat_index m' (compute_strides s) < (a + 1) * s.prod := by
        rw [Nat.add_mul, Nat.one_mul]
        omega
      have h2 : (a + 1) * s.prod ≤ dd * s.prod := Nat.mul_le_mul_right _ ha
      omega

theorem decompose_flat (shape m : List Nat) (hm : ValidIdx m shape) :
    compute_index (compute_flat_index m (compute_strides shape)) (compute_strides shape) = m := by
  induction shape generalizing m with
  | nil =>
    cases m with
    | nil => simp [compute_strides, compute_index]
    | cons a m' => exact absurd hm validIdx_not_nil_right
  | cons dd s ih =>
    cases m with
    | nil => exact absurd hm (by simp [ValidIdx])
    | cons a m' =>
      obtain ⟨ha, hm'⟩ := hm
      have hflat : compute_flat_index m' (compute_strides s) < s.prod := flat_bound s m' hm'
      have hp : 0 < s.prod := Nat.lt_of_le_of_lt (Nat.zero_le _) hflat
      simp only [compute_strides, compute_flat_index_cons, compute_index, List.cons.injEq]
      constructor
      · rw [Nat.add_comm, Nat.add_mul_div_right _ _ hp, Nat.div_eq_of_lt hflat, Nat.zero_add]
      · rw [Nat.add_comm, Nat.add_mul_mod_self_right, Nat.mod_eq_of_lt hflat]
        exact ih m' hm'

theorem validIdx_iff_getD {m shape : List Nat} :
    ValidIdx m shape ↔
      m.length = shape.length ∧ ∀ i < shape.length, m.getD i 0 < shape.getD i 0 := by
  induction m generalizing shape with
  | nil =>
    rw [validIdx_nil_left]
    constructor
    · rintro rfl; simp
    · rintro ⟨hl, _⟩
      exact List.eq_nil_of_length_eq_zero hl.symm
  | cons a m' ih =>
    cases shape with
    | nil => simp [ValidIdx]
    | cons d s =>
      rw [validIdx_cons, ih]
      constructor
      · rintro ⟨h1, h2, h3⟩
        refine ⟨by simpa using h2, ?_⟩
        intro i hi
        cases i with
        | zero => simpa using h1
        | succ i' => simpa using h3 i' (by simpa using hi)
      · rintro ⟨h1, h2⟩
        refine ⟨by simpa using h2 0 (by simp), by simpa using h1, ?_⟩
        intro i hi
        simpa using h2 (i + 1) (by simpa using hi)

end IndexMachinery

section PermMachinery

theorem scatterIndex_length (perm m : List Nat) :
    (scatterIndex perm m).length = m.length := by
  unfold scatterIndex
  rw [foldl_set_length]
  exact List.length_replicate ..

theorem permuteBy_length (perm l : List Nat) : (permuteBy perm l).length = l.length := by
  simp [permuteBy]

theorem permuteBy_getD (perm l : List Nat) (i : Nat) (hi : i < l.length) :
    (permuteBy perm l).getD i 0 = l.getD (perm.getD i 0) 0 := by
  have hi' : i < (permuteBy perm l).length := by rw [permuteBy_length]; exact hi
  rw [List.getD_eq_getElem _ _ hi']
  simp [permuteBy]

theorem getD_mem_of_lt {l : List Nat} {i : Nat} (hi : i < l.length) : l.getD i 0 ∈ l := by
  rw [List.getD_eq_getElem _ _ hi]
  exact l.getElem_mem hi

theorem scatterIndex_getD (perm m : List Nat) (hlen : perm.length = m.length)
    (hb : ∀ x ∈ perm, x < m.length) (hnd : perm.Nodup) (j : Nat) (hj : j < m.length) :
    (scatterIndex perm m).getD (perm.getD j 0) 0 = m.getD j 0 := by
  unfold scatterIndex
  apply foldl_set_getD _ _ _ _ _ j (List.mem_range.mpr hj)
  · rw [List.length_replicate]
    exact hb _ (getD_mem_of_lt (by omega))
  · intro i hi hfi
    have hi' : i < perm.length := by rw [hlen]; exact List.mem_range.mp hi
    have hj' : j < perm.length := by omega
    rw [List.getD_eq_getElem _ _ hi', List.getD_eq_getElem _ _ hj'] at hfi
    have : i = j := by
      have hinj := List.nodup_iff_injective_getElem.mp hnd
      have := @hinj ⟨i, hi'⟩ ⟨j, hj'⟩ hfi
      exact congrArg Fin.val this
    rw [this]

theorem scatterIndex_eq_permuteBy (perm m : List Nat) (hlen : perm.length = m.length)
    (hb : ∀ x ∈ perm, x < m.length) (hnd : perm.Nodup)
    (hinvol : involutivePerm perm m.length) :
    scatterIndex perm m = permuteBy perm m := by
  apply List.ext_getElem (by rw [scatterIndex_length, permuteBy_length])
  intro i h1 h2
  have hi : i < m.length := by rw [scatterIndex_length] at h1; exact h1
  rw [← List.getD_eq_getElem _ 0 h1, ← List.getD_eq_getElem _ 0 h2]
  rw [permuteBy_getD _ _ i hi]
  have hpi : perm.getD i 0 < m.length := hb _ (getD_mem_of_lt (by omega))
  have h := scatterIndex_getD perm m hlen hb hnd (perm.getD i 0) hpi
  rwa [hinvol i hi] at h

theorem permuteBy_permuteBy (perm l : List Nat) (hlen : perm.length = l.length)
    (hb : ∀ x ∈ perm, x < l.length) (hinvol : involutivePerm perm l.length) :
    permuteBy perm (permuteBy perm l) = l := by
  apply List.ext_getElem (by rw [permuteBy_length, permuteBy_length])
  intro i h1 h2
  have hi : i < l.length := h2
  rw [← List.getD_eq_getElem _ 0 h1, ← List.getD_eq_getElem _ 0 h2]
  rw [permuteBy_getD _ _ i (by rw [permuteBy_length]; exact hi)]
  have hpi : perm.getD i 0 < l.length := hb _ (getD_mem_of_lt (by omega))
  rw [permuteBy_getD _ _ _ hpi, hinvol i hi]

theorem validIdx_scatter (perm m shape : List Nat) (hm : ValidIdx m shape)
    (hv : validPerm perm shape.length) (hinvol : involutivePerm perm shape.length) :
    ValidIdx (scatterIndex perm m) (permuteBy perm shape) := by
  obtain ⟨hlen, hb, hnd⟩ := hv
  have hml : m.length = shape.length := validIdx_length hm
  rw [scatterIndex_eq_permuteBy perm m (by omega) (by rw [hml]; exact hb) hnd (by rw [hml]; exact hinvol)]
  rw [validIdx_iff_getD]
  refine ⟨by rw [permuteBy_length, permuteBy_length, hml], ?_⟩
  intro i hi
  rw [permuteBy_length] at hi
  rw [permuteBy_getD _ _ i (by omega), permuteBy_getD _ _ i hi]
  have hpi : perm.getD i 0 < shape.length := hb _ (getD_mem_of_lt (by omega))
  exact (validIdx_iff_getD.mp hm).2 _ hpi

theorem permuteBy_eq_map (perm shape : List Nat) (hlen : perm.length = shape.length) :
    permuteBy perm shape = perm.map (fun j => shape.getD j 0) := by
  apply List.ext_getElem (by rw [permuteBy_length, List.length_map, hlen])
  intro i h1 h2
  have hi : i < shape.length := by rw [permuteBy_length] at h1; exact h1
  rw [← List.getD_eq_getElem _ 0 h1, permuteBy_getD _ _ i hi]
  rw [List.getElem_map]
  congr 1
  exact List.getD_eq_getElem _ _ (by rw [List.length_map] at h2; exact h2)

theorem self_eq_map_range_getD (shape : List Nat) :
    shape = (List.range shape.length).map (fun j => shape.getD j 0) := by
  apply List.ext_getElem (by simp)
  intro i h1 h2
  rw [List.getElem_map, List.getElem_range]
  exact (List.getD_eq_getElem _ _ h1).symm

theorem perm_range_of_validPerm {perm : List Nat} {n : Nat} (hv : validPerm perm n) :
    perm.Perm (List.range n) := by
  obtain ⟨hlen, hb, hnd⟩ := hv
  apply List.Subperm.perm_of_length_le
  · exact hnd.subperm (fun x hx => List.mem_range.mpr (hb x hx))
  · simp [hlen]

theorem permuteBy_prod (perm shape : List Nat) (hv : validPerm perm shape.length) :
    (permuteBy perm shape).prod = shape.prod := by
  rw [permuteBy_eq_map perm shape hv.1]
  conv_rhs => rw [self_eq_map_range_getD shape]
  exact ((perm_range_of_validPerm hv).map _).prod_eq

end PermMachinery

section TransposeMachinery

variable {α : Type}

theorem writeLoop_length (f : Nat → Nat) (v : Nat → α) (l : List Nat) (acc : List α) :
    (writeLoop f v l acc).length = acc.length :=
  foldl_set_length l f v acc

theorem writeLoop_getD (f : Nat → Nat) (v : Nat → α) (l : List Nat) (acc : List α)
    (d : α) (j : Nat) (hj : j ∈ l) (hlen : f j < acc.length)
    (huniq : ∀ i ∈ l, f i = f j → v i = v j) :
    (writeLoop f v l acc).getD (f j) d = v j :=
  foldl_set_getD l f v acc d j hj hlen huniq

theorem Tensor.dataView_full (t : Tensor α) (hoff : t.offset = 0)
    (hfull : t.length = t.data.length) : t.dataView = t.data := by
  rw [Tensor.dataView, hoff, List.drop_zero, hfull, List.take_length]

theorem Tensor.transpose_shape (t : Tensor α) (dflt : α) (perm : List Nat) :
    (t.transpose dflt perm).shape = permuteBy perm t.shape := rfl

theorem Tensor.transpose_offset (t : Tensor α) (dflt : α) (perm : List Nat) :
    (t.transpose dflt perm).offset = 0 := rfl

theorem Tensor.transpose_data_length (t : Tensor α) (dflt : α) (perm : List Nat) :
    (t.transpose dflt perm).data.length = t.data.length := by
  show (writeLoop _ _ _ _).length = t.data.length
  rw [writeLoop_length]
  exact List.length_replicate ..

theorem Tensor.transpose_length (t : Tensor α) (dflt : α) (perm : List Nat) :
    (t.transpose dflt perm).length = t.data.length := by
  show (writeLoop _ _ _ _).length = t.data.length
  rw [writeLoop_length]
  exact List.length_replicate ..

theorem transposeFlatMap_lt (shape perm : List Nat) (hv : validPerm perm shape.length)
    (hinvol : involutivePerm perm shape.length) {k : Nat} (hk : k < shape.prod) :
    transposeFlatMap shape perm k < shape.prod := by
  have hm := decompose_valid shape k hk
  have hs := validIdx_scatter perm _ shape hm hv hinvol
  have hb := flat_bound _ _ hs
  rwa [permuteBy_prod perm shape hv] at hb

theorem scatterIndex_inj {perm m1 m2 : List Nat} (n : Nat) (hl1 : m1.length = n)
    (hl2 : m2.length = n) (hlen : perm.length = n) (hb : ∀ x ∈ perm, x < n)
    (hnd : perm.Nodup) (hinvol : involutivePerm perm n)
    (heq : scatterIndex perm m1 = scatterIndex perm m2) : m1 = m2 := by
  rw [scatterIndex_eq_permuteBy perm m1 (by omega) (by rw [hl1]; exact hb) hnd
        (by rw [hl1]; exact hinvol),
      scatterIndex_eq_permuteBy perm m2 (by omega) (by rw [hl2]; exact hb) hnd
        (by rw [hl2]; exact hinvol)] at heq
  have h := congrArg (permuteBy perm) heq
  rwa [permuteBy_permuteBy perm m1 (by omega) (by rw [hl1]; exact hb) (by rw [hl1]; exact hinvol),
       permuteBy_permuteBy perm m2 (by omega) (by rw [hl2]; exact hb) (by rw [hl2]; exact hinvol)]
    at h

theorem transposeFlatMap_inj (shape perm : List Nat) (hv : validPerm perm shape.length)
    (hinvol : involutivePerm perm shape.length) {i k : Nat} (hi : i < shape.prod)
    (hk : k < shape.prod) (heq : transposeFlatMap shape perm i = transposeFlatMap shape perm k) :
    i = k := by
  have hmi := decompose_valid shape i hi
  have hmk := decompose_valid shape k hk
  have hsi := validIdx_scatter perm _ shape hmi hv hinvol
  have hsk := validIdx_scatter perm _ shape hmk hv hinvol
  have h1 : scatterIndex perm (compute_index i (compute_strides shape))
      = scatterIndex perm (compute_index k (compute_strides shape)) := by
    have d1 := decompose_flat _ _ hsi
    have d2 := decompose_flat _ _ hsk
    unfold transposeFlatMap at heq
    rw [← d1, ← d2, heq]
  obtain ⟨hlen, hb, hnd⟩ := hv
  have h2 := scatterIndex_inj shape.length
    (by rw [compute_index_length, compute_strides_length])
    (by rw [compute_index_length, compute_strides_length]) hlen hb hnd hinvol h1
  have e1 := flat_decompose shape i hi
  have e2 := flat_decompose shape k hk
  rw [← e1, ← e2, h2]

theorem Tensor.transpose_getD (t : Tensor α) (dflt : α) (perm : List Nat)
    (hoff : t.offset = 0) (hfull : t.length = t.data.length)
    (hprod : t.shape.prod = t.length)
    (hv : validPerm perm t.shape.length) (hinvol : involutivePerm perm t.shape.length)
    {k : Nat} (hk : k < t.size) :
    (t.transpose dflt perm).data.getD (transposeFlatMap t.shape perm k) dflt
      = t.data.getD k dflt := by
  have hks : k < t.shape.prod := by rw [hprod]; exact hk
  show (writeLoop (transposeFlatMap t.shape perm) (fun i => t.dataView.getD i dflt)
      (List.range t.size) (List.replicate t.data.length dflt)).getD _ _ = _
  have h := writeLoop_getD (transposeFlatMap t.shape perm)
      (fun i => t.dataView.getD i dflt) (List.range t.size)
      (List.replicate t.data.length dflt) dflt k (List.mem_range.mpr hk) ?_ ?_
  · rw [h, Tensor.dataView_full t hoff hfull]
  · rw [List.length_replicate, ← hfull, ← hprod]
    exact transposeFlatMap_lt t.shape perm hv hinvol hks
  · intro i hi hfi
    have hii : i < t.shape.prod := by
      rw [hprod]
      exact List.mem_range.mp hi
    rw [transposeFlatMap_inj t.shape perm hv hinvol hii hks hfi]

theorem transposeFlatMap_double (shape perm : List Nat) (hv : validPerm perm shape.length)
    (hinvol : involutivePerm perm shape.length) {k : Nat} (hk : k < shape.prod) :
    transposeFlatMap (permuteBy perm shape) perm (transposeFlatMap shape perm k) = k := by
  obtain ⟨hlen, hb, hnd⟩ := hv
  have hm := decompose_valid shape k hk
  have hs := validIdx_scatter perm _ shape hm ⟨hlen, hb, hnd⟩ hinvol
  have hstep1 : compute_index (transposeFlatMap shape perm k)
      (compute_strides (permuteBy perm shape))
      = scatterIndex perm (compute_index k (compute_strides shape)) := by
    unfold transposeFlatMap
    exact decompose_flat _ _ hs
  unfold transposeFlatMap
  unfold transposeFlatMap at hstep1
  rw [hstep1]
  have hml : (compute_index k (compute_strides shape)).length = shape.length := by
    rw [compute_index_length, compute_strides_length]
  have hg1 : scatterIndex perm (compute_index k (compute_strides shape))
      = permuteBy perm (compute_index k (compute_strides shape)) :=
    scatterIndex_eq_permuteBy perm _ (by omega) (by rw [hml]; exact hb) hnd
      (by rw [hml]; exact hinvol)
  have hsl : (scatterIndex perm (compute_index k (compute_strides shape))).length
      = shape.length := by rw [scatterIndex_length, hml]
  have hg2 : scatterIndex perm (scatterIndex perm (compute_index k (compute_strides shape)))
      = permuteBy perm (permuteBy perm (compute_index k (compute_strides shape))) := by
    rw [hg1]
    apply scatterIndex_eq_permuteBy perm _ (by rw [permuteBy_length, hml]; omega)
      (by rw [permuteBy_length, hml]; exact hb) hnd
      (by rw [permuteBy_length, hml]; exact hinvol)
  rw [hg2, permuteBy_permuteBy perm _ (by omega) (by rw [hml]; exact hb)
      (by rw [hml]; exact hinvol)]
  have hshape2 : permuteBy perm (permuteBy perm shape) = shape :=
    permuteBy_permuteBy perm shape (by omega) hb hinvol
  rw [hshape2]
  exact flat_decompose shape k hk

end TransposeMachinery

section GlueLemmas

variable {α : Type}

theorem Tensor.ext' {x y : Tensor α} (h1 : x.data = y.data) (h2 : x.shape = y.shape)
    (h3 : x.offset = y.offset) (h4 : x.length = y.length) : x = y := by
  cases x
  cases y
  cases h1
  cases h2
  cases h3
  cases h4
  rfl

theorem except_bind_ok {ε α β : Type} (a : α) (f : α → Except ε β) :
    (Except.ok a >>= f : Except ε β) = f a := rfl

theorem except_bind_error {ε α β : Type} (e : ε) (f : α → Except ε β) :
    ((Except.error e : Except ε α) >>= f) = Except.error e := rfl

end GlueLemmas

/-- C10: `Tensor::new` is total at the public interface: for every data
vector and every shape — including shapes whose dimension product differs
from the data length — it succeeds and returns a tensor whose `shape()` is
the given shape, whose `size()` is the data length, whose offset is 0 and
whose `data()` is the given data; no validation relating the shape product
to the data length is performed (the function is total, so there is no
failure path at all). -/
theorem c10_new_total {α : Type} (data : List α) (shape : List Nat) :
    (Tensor.new data shape).shape = shape ∧
    (Tensor.new data shape).size = data.length ∧
    (Tensor.new data shape).offset = 0 ∧
    (Tensor.new data shape).dataView = data := by
  refine ⟨rfl, rfl, rfl, ?_⟩
  show (data.drop 0).take data.length = data
  rw [List.drop_zero, List.take_length]

/-- C4, counterexample: with data `[1]` and shape `[2, 3]` the shape product
(6) differs from the data length (1), yet `Tensor::new` succeeds and returns
the wrapped tensor; it does not fail with `ShapeMismatch` (it has no failure
path), refuting the claim that it fails whenever the product differs. -/
theorem c4_counterexample :
    (Tensor.new [1] [2, 3] : Tensor Nat)
      = { data := [1], shape := [2, 3], offset := 0, length := 1 } ∧
    ([2, 3] : List Nat).prod ≠ ([1] : List Nat).length :=
  ⟨rfl, by decide⟩

/-- C4, amended: `Tensor::new(data, shape)` never fails: for every data
vector and shape (also when `product(shape) ≠ data.length`) it returns the
tensor wrapping the data with the given shape, offset 0 and
`length = data.length`; no `ShapeMismatch` validation is performed. -/
theorem c4_new_no_validation {α : Type} (data : List α) (shape : List Nat) :
    Tensor.new data shape
      = { data := data, shape := shape, offset := 0, length := data.length } := rfl

/-- C6: `reshape(new_shape)` fails (modelling the Rust panic as `none`, which
also leaves the tensor untouched) exactly when `product(new_shape)` differs
from the view length; on success only the shape metadata changes — the
buffer, offset, length, and therefore the flat element sequence `data()` are
all preserved, with no copy. -/
theorem c6_reshape_spec {α : Type} (t : Tensor α) (new_shape : List Nat) :
    (t.reshape new_shape
      = if new_shape.prod = t.length then some { t with shape := new_shape } else none) ∧
    ((t.reshape new_shape).map Tensor.dataView
      = if new_shape.prod = t.length then some t.dataView else none) ∧
    ((t.reshape new_shape).map Tensor.data
      = if new_shape.prod = t.length then some t.data else none) ∧
    ((t.reshape new_shape).map Tensor.offset
      = if new_shape.prod = t.length then some t.offset else none) ∧
    ((t.reshape new_shape).map Tensor.length
      = if new_shape.prod = t.length then some t.length else none) := by
  refine ⟨rfl, ?_, ?_, ?_, ?_⟩ <;>
  · rw [Tensor.reshape]
    by_cases h : new_shape.prod = t.length <;> simp [h, Tensor.dataView]

/-- C7: `slice(start, S)` fails (modelling the Rust assert as `none`) exactly
when `offset + start + product(S)` exceeds the source view length; otherwise
it returns a view of exactly `product(S)` elements starting at buffer
position `offset + start`, whose `data()` is the buffer elements at flat
positions `[offset + start, offset + start + product(S))` and which shares
the same backing buffer as the source (equal `data` field; no element
copy). -/
theorem c7_slice_spec {α : Type} (t : Tensor α) (start : Nat) (s : List Nat) :
    (t.slice start s
      = if t.offset + start + s.prod ≤ t.length then
          some { data := t.data, shape := s, offset := t.offset + start, length := s.prod }
        else none) ∧
    ((t.slice start s).map Tensor.size
      = if t.offset + start + s.prod ≤ t.length then some s.prod else none) ∧
    ((t.slice start s).map Tensor.dataView
      = if t.offset + start + s.prod ≤ t.length then
          some ((t.data.drop (t.offset + start)).take s.prod)
        else none) ∧
    ((t.slice start s).map Tensor.data
      = if t.offset + start + s.prod ≤ t.length then some t.data else none) := by
  refine ⟨rfl, ?_, ?_, ?_⟩ <;>
  · rw [Tensor.slice]
    by_cases h : t.offset + start + s.prod ≤ t.length <;>
      simp [h, Tensor.dataView, Tensor.size]

/-- C5, counterexample: the tensor returned by the public operation
`Tensor::new([1], [2, 3])` violates `product(shape) == length`
(6 ≠ 1), refuting the claim that the invariant holds for every tensor
reachable through the public operations and is enforced on construction. -/
theorem c5_counterexample :
    (Tensor.new [1] [2, 3] : Tensor Nat).shape.prod
      ≠ (Tensor.new [1] [2, 3] : Tensor Nat).length := by decide

/-- C5 (amended): `product(shape) == length` is established by every
successful `reshape` and `slice` — on any source tensor whatsoever, a view
or not, invariant-satisfying or not — and by `default`; it is preserved by
`clone`, and by `transpose` for full views with a valid permutation; but it
is not enforced on construction: `Tensor::new` yields a tensor satisfying it
exactly when `product(shape) = data.length` already holds of its
arguments. Each conjunct carries only its own hypotheses. -/
theorem c5_invariant_amended {α : Type} (t t1 t2 : Tensor α) (d : α)
    (data : List α) (shape ns s2 perm : List Nat) (start : Nat) :
    (t.reshape ns = some t1 → t1.shape.prod = t1.length) ∧
    (t.slice start s2 = some t2 → t2.shape.prod = t2.length) ∧
    (t.shape.prod = t.length → (t.clone).shape.prod = (t.clone).length) ∧
    (Tensor.defaultOf d shape).shape.prod = (Tensor.defaultOf d shape).length ∧
    ((Tensor.new data shape).shape.prod = (Tensor.new data shape).length ↔
      shape.prod = data.length) ∧
    (t.shape.prod = t.length → t.length = t.data.length → validPerm perm t.shape.length →
      (t.transpose d perm).shape.prod = (t.transpose d perm).length) := by
  refine ⟨?_, ?_, fun hprod => hprod, ?_, Iff.rfl, ?_⟩
  · intro h1
    rw [Tensor.reshape] at h1
    by_cases h : ns.prod = t.length
    · rw [if_pos h] at h1
      cases h1
      exact h
    · rw [if_neg h] at h1
      cases h1
  · intro h2
    rw [Tensor.slice] at h2
    by_cases h : t.offset + start + s2.prod ≤ t.length
    · rw [if_pos h] at h2
      cases h2
      rfl
    · rw [if_neg h] at h2
      cases h2
  · show shape.prod = (List.replicate shape.prod d).length
    rw [List.length_replicate]
  · intro hprod hfull hv
    rw [Tensor.transpose_length]
    show (permuteBy perm t.shape).prod = t.data.length
    rw [permuteBy_prod perm t.shape hv, hprod, hfull]

/-- C5 witness: the reshape conjunct discharged at a strict slice view
(offset 2, length 3 over a 6-element buffer), the slice conjunct at the
invariant-violating tensor `Tensor::new([1], [2, 3])`, and the transpose
conjunct at the full-view 2×3 tensor with the valid permutation `[1, 0]`. -/
theorem c5_invariant_amended_witness :
    (({ data := [1, 2, 3, 4, 5, 6], shape := [1, 3], offset := 2, length := 3 }
      : Tensor Nat).shape.prod
      = ({ data := [1, 2, 3, 4, 5, 6], shape := [1, 3], offset := 2, length := 3 }
      : Tensor Nat).length) ∧
    (({ data := [1], shape := [1], offset := 0, length := 1 } : Tensor Nat).shape.prod
      = ({ data := [1], shape := [1], offset := 0, length := 1 } : Tensor Nat).length) ∧
    ((Tensor.new [1, 2, 3, 4, 5, 6] [2, 3] : Tensor Nat).transpose 0 [1, 0]).shape.prod
      = ((Tensor.new [1, 2, 3, 4, 5, 6] [2, 3] : Tensor Nat).transpose 0 [1, 0]).length := by
  have hview := c5_invariant_amended
    ({ data := [1, 2, 3, 4, 5, 6], shape := [3], offset := 2, length := 3 } : Tensor Nat)
    ({ data := [1, 2, 3, 4, 5, 6], shape := [1, 3], offset := 2, length := 3 })
    ({ data := [1, 2, 3, 4, 5, 6], shape := [1], offset := 2, length := 1 })
    0 [5] [1] [1, 3] [1] [0] 0
  have hbad := c5_invariant_amended (Tensor.new [1] [2, 3] : Tensor Nat)
    ({ data := [1], shape := [2, 3], offset := 0, length := 1 })
    ({ data := [1], shape := [1], offset := 0, length := 1 })
    0 [5] [1] [2, 3] [1] [0] 0
  have htr := c5_invariant_amended (Tensor.new [1, 2, 3, 4, 5, 6] [2, 3] : Tensor Nat)
    ({ data := [1], shape := [1], offset := 0, length := 1 })
    ({ data := [1], shape := [1], offset := 0, length := 1 })
    0 [5] [1] [1] [1] [1, 0] 0
  exact ⟨hview.1 rfl, hbad.2.1 rfl, htr.2.2.2.2.2 (by decide) rfl (by decide)⟩

/-- C3: the claim that `transpose` is size-preserving for every tensor
including slice views fails, and this is a slip in the code relative to the
spec (and to the data model's own `product(shape) == length` invariant):
`transpose` allocates and wraps `self.data.len()` elements — the full
backing-buffer length — instead of `self.size()`. Concretely, slicing the
6-element tensor to a 3-element view and transposing with the (valid,
identity) permutation `[0]` yields size 6, not 3. -/
theorem c3_transpose_view_size :
    ((Tensor.new [1, 2, 3, 4, 5, 6] [6] : Tensor Nat).slice 0 [3]
      = some { data := [1, 2, 3, 4, 5, 6], shape := [3], offset := 0, length := 3 }) ∧
    ({ data := [1, 2, 3, 4, 5, 6], shape := [3], offset := 0, length := 3 }
      : Tensor Nat).size = 3 ∧
    (({ data := [1, 2, 3, 4, 5, 6], shape := [3], offset := 0, length := 3 }
      : Tensor Nat).transpose 0 [0]).size = 6 ∧
    validPerm [0] 1 := by
  refine ⟨rfl, rfl, ?_, by decide⟩
  decide

/-- C8: the loader does not iterate `0..num_layers`: with a configured
`num_layers = 3` and a bundle resolving every name, loading succeeds and
every per-layer sequence has exactly 2 entries (layers 0 and 1 are hardcoded
literals and the configuration is never read), not `num_layers` entries. -/
theorem c8_hardcoded_layers :
    (from_safetensors constBundle (fun l => l) { num_layers := 3 }).map
      (fun p => (p.rms_att_w.length, p.wq.length, p.wk.length, p.wv.length, p.wo.length,
        p.rms_ffn_w.length, p.w_up.length, p.w_gate.length, p.w_down.length))
      = Except.ok (2, 2, 2, 2, 2, 2, 2, 2, 2) ∧
    ({ num_layers := 3 } : LlamaConfigJson).num_layers = 3 :=
  ⟨rfl, rfl⟩

/-- C1, counterexample: `T234` is a full view (offset 0, length = buffer
length = product of shape `[2, 3, 4]`) and `[1, 2, 0]` is a valid permutation
of its axes (one entry per dimension, each used once), yet `transpose`
attempts an out-of-bounds buffer write — source flat index 23 is mapped to
destination flat index 28 in the 24-element destination buffer — refuting the
claim that it completes without out-of-bounds access for every valid
permutation. -/
theorem c1_counterexample :
    T234.offset = 0 ∧ T234.length = T234.data.length ∧
    T234.shape.prod = T234.length ∧ validPerm [1, 2, 0] T234.shape.length ∧
    ¬ transposeInBounds T234 [1, 2, 0] ∧
    transposeFlatMap T234.shape [1, 2, 0] 23 = 28 ∧ T234.data.length = 24 := by decide

/-- C1 (amended): for every full-view tensor (offset 0, length equal to the
buffer length, `product(shape) = length`) and every valid permutation of its
axes that is additionally an involution (`perm[perm[i]] = i`, which covers
every 2-D transpose and the identity — the original claim fails for
non-involutive permutations, see the counterexample), `transpose` performs no
out-of-bounds buffer access, returns a tensor of the same size whose shape at
axis `i` is the source shape at axis `perm[i]`, and physically reorders the
data into row-major layout for the new shape: the destination element at any
valid multi-index `m` equals the source element at multi-index
`j ↦ m[perm[j]]`. -/
theorem c1_transpose_safe_amended {α : Type} (t : Tensor α) (dflt : α) (perm : List Nat)
    (hoff : t.offset = 0) (hfull : t.length = t.data.length)
    (hprod : t.shape.prod = t.length)
    (hv : validPerm perm t.shape.length) (hinvol : involutivePerm perm t.shape.length) :
    transposeInBounds t perm ∧
    (t.transpose dflt perm).shape.length = t.shape.length ∧
    (∀ i < t.shape.length,
      (t.transpose dflt perm).shape.getD i 0 = t.shape.getD (perm.getD i 0) 0) ∧
    (t.transpose dflt perm).size = t.size ∧
    (∀ k < t.size,
      (t.transpose dflt perm).data.getD (transposeFlatMap t.shape perm k) dflt
        = t.data.getD k dflt) ∧
    (∀ m, ValidIdx m (t.transpose dflt perm).shape →
      (t.transpose dflt perm).data.getD
          (compute_flat_index m (compute_strides (t.transpose dflt perm).shape)) dflt
        = t.data.getD (compute_flat_index (permuteBy perm m) (compute_strides t.shape)) dflt) := by
  obtain ⟨hlen, hb, hnd⟩ := hv
  refine ⟨⟨le_of_eq hlen.symm, ?_, ?_⟩, ?_, ?_, ?_, ?_, ?_⟩
  · intro i hi
    exact hb _ (getD_mem_of_lt (by omega))
  · intro i hi
    constructor
    · rw [Tensor.dataView_full t hoff hfull, ← hfull]
      exact hi
    · rw [← hfull, ← hprod]
      exact transposeFlatMap_lt t.shape perm ⟨hlen, hb, hnd⟩ hinvol (by rw [hprod]; exact hi)
  · rw [Tensor.transpose_shape, permuteBy_length]
  · intro i hi
    rw [Tensor.transpose_shape, permuteBy_getD _ _ i hi]
  · show (t.transpose dflt perm).length = t.length
    rw [Tensor.transpose_length, hfull]
  · intro k hk
    exact Tensor.transpose_getD t dflt perm hoff hfull hprod ⟨hlen, hb, hnd⟩ hinvol hk
  · intro m hm
    rw [Tensor.transpose_shape] at hm
    have hml : m.length = t.shape.length := by
      rw [validIdx_length hm, permuteBy_length]
    have hmm : ValidIdx (permuteBy perm m) t.shape := by
      rw [validIdx_iff_getD]
      refine ⟨by rw [permuteBy_length, hml], ?_⟩
      intro j hj
      have hpj : perm.getD j 0 < t.shape.length := hb _ (getD_mem_of_lt (by omega))
      rw [permuteBy_getD _ _ j (by omega)]
      have h1 := (validIdx_iff_getD.mp hm).2 (perm.getD j 0) (by rw [permuteBy_length]; exact hpj)
      rw [permuteBy_getD _ _ _ hpj, hinvol j hj] at h1
      exact h1
    have hk : compute_flat_index (permuteBy perm m) (compute_strides t.shape) < t.shape.prod :=
      flat_bound _ _ hmm
    have hks : compute_flat_index (permuteBy perm m) (compute_strides t.shape) < t.size := by
      rw [Tensor.size, ← hprod]
      exact hk
    have hdec : compute_index (compute_flat_index (permuteBy perm m) (compute_strides t.shape))
        (compute_strides t.shape) = permuteBy perm m := decompose_flat _ _ hmm
    have hsc : scatterIndex perm (permuteBy perm m) = m := by
      rw [scatterIndex_eq_permuteBy perm _ (by rw [permuteBy_length, hml]; omega)
            (by rw [permuteBy_length, hml]; exact hb) hnd
            (by rw [permuteBy_length, hml]; exact hinvol)]
      exact permuteBy_permuteBy perm m (by omega) (by rw [hml]; exact hb)
        (by rw [hml]; exact hinvol)
    have hflat : transposeFlatMap t.shape perm
        (compute_flat_index (permuteBy perm m) (compute_strides t.shape))
        = compute_flat_index m (compute_strides (permuteBy perm t.shape)) := by
      unfold transposeFlatMap
      rw [hdec, hsc]
    have h := Tensor.transpose_getD t dflt perm hoff hfull hprod ⟨hlen, hb, hnd⟩ hinvol hks
    rw [hflat] at h
    rw [Tensor.transpose_shape]
    exact h

/-- C1 witness: the amended theorem applied to the 2×3 tensor
`[1, 2, 3, 4, 5, 6]` with the involutive permutation `[1, 0]`. -/
theorem c1_transpose_safe_amended_witness :
    transposeInBounds (Tensor.new [1, 2, 3, 4, 5, 6] [2, 3] : Tensor Nat) [1, 0] ∧
    ((Tensor.new [1, 2, 3, 4, 5, 6] [2, 3] : Tensor Nat).transpose 0 [1, 0]).size = 6 := by
  have h := c1_transpose_safe_amended (Tensor.new [1, 2, 3, 4, 5, 6] [2, 3]) 0 [1, 0]
    rfl rfl (by decide) (by decide) (by decide)
  exact ⟨h.1, h.2.2.2.1⟩

/-- C2, counterexample: `[2, 0, 1]` is the inverse of the valid permutation
`[1, 2, 0]` (composing them is the identity on axes), yet transposing `T234`
by `[1, 2, 0]` and the result by `[2, 0, 1]` does not restore the original:
the shape returns to `[2, 3, 4]` but the data sequence differs (the first
transpose loses elements to out-of-bounds writes), refuting element-wise
equality for general valid permutations. -/
theorem c2_counterexample :
    validPerm [1, 2, 0] 3 ∧ validPerm [2, 0, 1] 3 ∧
    (∀ j < 3, ([2, 0, 1] : List Nat).getD (([1, 2, 0] : List Nat).getD j 0) 0 = j) ∧
    ((T234.transpose 0 [1, 2, 0]).transpose 0 [2, 0, 1]).shape = T234.shape ∧
    ((T234.transpose 0 [1, 2, 0]).transpose 0 [2, 0, 1]).data ≠ T234.data := by decide

/-- C2 (amended): for every full-view tensor satisfying the shape invariant
and every valid involutive permutation (for which the inverse permutation is
`perm` itself; the original claim fails for non-involutive permutations, see
the counterexample, and for strict slice views via the size bug of C3),
transposing twice restores the original tensor exactly — same shape, same
data sequence, same offset and length. -/
theorem c2_double_transpose_amended {α : Type} (t : Tensor α) (dflt : α) (perm : List Nat)
    (hoff : t.offset = 0) (hfull : t.length = t.data.length)
    (hprod : t.shape.prod = t.length)
    (hv : validPerm perm t.shape.length) (hinvol : involutivePerm perm t.shape.length) :
    (t.transpose dflt perm).transpose dflt perm = t := by
  obtain ⟨hlen, hb, hnd⟩ := hv
  have hr1shape : (t.transpose dflt perm).shape = permuteBy perm t.shape :=
    Tensor.transpose_shape t dflt perm
  have hr1slen : (t.transpose dflt perm).shape.length = t.shape.length := by
    rw [hr1shape, permuteBy_length]
  have hr1off : (t.transpose dflt perm).offset = 0 := rfl
  have hr1full : (t.transpose dflt perm).length = (t.transpose dflt perm).data.length := by
    rw [Tensor.transpose_length, Tensor.transpose_data_length]
  have hr1prod : (t.transpose dflt perm).shape.prod = (t.transpose dflt perm).length := by
    rw [hr1shape, permuteBy_prod perm t.shape ⟨hlen, hb, hnd⟩, hprod, Tensor.transpose_length,
      hfull]
  have hv1 : validPerm perm (t.transpose dflt perm).shape.length := by
    rw [hr1slen]
    exact ⟨hlen, hb, hnd⟩
  have hinvol1 : involutivePerm perm (t.transpose dflt perm).shape.length := by
    rw [hr1slen]
    exact hinvol
  apply Tensor.ext'
  · -- data fields
    have hlen2 : ((t.transpose dflt perm).transpose dflt perm).data.length = t.data.length := by
      rw [Tensor.transpose_data_length, Tensor.transpose_data_length]
    apply List.ext_getElem (by rw [hlen2])
    intro pos h1 h2
    rw [← List.getD_eq_getElem _ dflt h1, ← List.getD_eq_getElem _ dflt h2]
    have hpos : pos < t.size := by rw [Tensor.size, hfull]; exact h2
    have hposp : pos < t.shape.prod := by rw [hprod, hfull]; exact h2
    have hj : transposeFlatMap t.shape perm pos < t.shape.prod :=
      transposeFlatMap_lt t.shape perm ⟨hlen, hb, hnd⟩ hinvol hposp
    have hjs : transposeFlatMap t.shape perm pos < (t.transpose dflt perm).size := by
      rw [Tensor.size, Tensor.transpose_length, ← hfull, ← hprod]
      exact hj
    have step2 := Tensor.transpose_getD (t.transpose dflt perm) dflt perm hr1off hr1full
      hr1prod hv1 hinvol1 hjs
    have hdouble : transposeFlatMap (t.transpose dflt perm).shape perm
        (transposeFlatMap t.shape perm pos) = pos := by
      rw [hr1shape]
      exact transposeFlatMap_double t.shape perm ⟨hlen, hb, hnd⟩ hinvol hposp
    rw [hdouble] at step2
    rw [step2]
    exact Tensor.transpose_getD t dflt perm hoff hfull hprod ⟨hlen, hb, hnd⟩ hinvol hpos
  · rw [Tensor.transpose_shape, hr1shape]
    exact permuteBy_permuteBy perm t.shape (by omega) hb hinvol
  · rw [Tensor.transpose_offset, hoff]
  · rw [Tensor.transpose_length, Tensor.transpose_data_length, hfull]

/-- C2 witness: double transpose of the 2×3 tensor `[1, 2, 3, 4, 5, 6]` with
the involutive permutation `[1, 0]` returns the original tensor. -/
theorem c2_double_transpose_amended_witness :
    ((Tensor.new [1, 2, 3, 4, 5, 6] [2, 3] : Tensor Nat).transpose 0 [1, 0]).transpose 0 [1, 0]
      = Tensor.new [1, 2, 3, 4, 5, 6] [2, 3] :=
  c2_double_transpose_amended (Tensor.new [1, 2, 3, 4, 5, 6] [2, 3]) 0 [1, 0]
    rfl rfl (by decide) (by decide) (by decide)

/-- C9: the loader fails immediately with no partial store. If the six names
requested before `"model.layers.1.self_attn.k_proj.weight"` all resolve to
`F32` views with well-formed payloads but that key is absent, the whole load
returns exactly `MissingTensor` naming that key (the `num_layers >= 2`
hypothesis of the claim is recorded although the covered loader never reads
the configuration). In general, `get_tensor` fails with `MissingTensor(name)`
whenever the bundle lacks `name`, and with `DtypeMismatch` naming the key and
the found dtype whenever a located view's dtype is not `F32`. -/
theorem c9_loader_failure {α : Type} (st : String → Option STView) (dec : List Nat → α)
    (cfg : LlamaConfigJson) (_hnl : 2 ≤ cfg.num_layers)
    (hmiss : st ("model.layers.1.self_attn.k_proj.weight") = none)
    (hok : ∀ n ∈ earlierNames,
      ∃ v, st n = some v ∧ v.dtype = Dtype.F32 ∧ v.data.length % 4 = 0) :
    from_safetensors st dec cfg
      = Except.error (LoadError.missingTensor ("model.layers.1.self_attn.k_proj.weight")) ∧
    (∀ name, st name = none →
      get_tensor st dec name = Except.error (LoadError.missingTensor name)) ∧
    (∀ name v, st name = some v → v.dtype ≠ Dtype.F32 →
      get_tensor st dec name = Except.error (LoadError.dtypeMismatch name v.dtype)) := by
  refine ⟨?_, ?_, ?_⟩
  · obtain ⟨v1, hv1, hd1, hm1⟩ := hok ("lm_head.weight") (by simp [earlierNames])
    obtain ⟨v2, hv2, hd2, hm2⟩ := hok ("model.layers.0.input_layernorm.weight")
      (by simp [earlierNames])
    obtain ⟨v3, hv3, hd3, hm3⟩ := hok ("model.layers.1.input_layernorm.weight")
      (by simp [earlierNames])
    obtain ⟨v4, hv4, hd4, hm4⟩ := hok ("model.layers.0.self_attn.q_proj.weight")
      (by simp [earlierNames])
    obtain ⟨v5, hv5, hd5, hm5⟩ := hok ("model.layers.1.self_attn.q_proj.weight")
      (by simp [earlierNames])
    obtain ⟨v6, hv6, hd6, hm6⟩ := hok ("model.layers.0.self_attn.k_proj.weight")
      (by simp [earlierNames])
    have e1 : get_tensor st dec ("lm_head.weight")
        = Except.ok (Tensor.new ((chunks4 v1.data).map dec) v1.shape) := by
      simp [get_tensor, hv1, hd1, hm1]
    have e2 : get_tensor st dec ("model.layers.0.input_layernorm.weight")
        = Except.ok (Tensor.new ((chunks4 v2.data).map dec) v2.shape) := by
      simp [get_tensor, hv2, hd2, hm2]
    have e3 : get_tensor st dec ("model.layers.1.input_layernorm.weight")
        = Except.ok (Tensor.new ((chunks4 v3.data).map dec) v3.shape) := by
      simp [get_tensor, hv3, hd3, hm3]
    have e4 : get_tensor st dec ("model.layers.0.self_attn.q_proj.weight")
        = Except.ok (Tensor.new ((chunks4 v4.data).map dec) v4.shape) := by
      simp [get_tensor, hv4, hd4, hm4]
    have e5 : get_tensor st dec ("model.layers.1.self_attn.q_proj.weight")
        = Except.ok (Tensor.new ((chunks4 v5.data).map dec) v5.shape) := by
      simp [get_tensor, hv5, hd5, hm5]
    have e6 : get_tensor st dec ("model.layers.0.self_attn.k_proj.weight")
        = Except.ok (Tensor.new ((chunks4 v6.data).map dec) v6.shape) := by
      simp [get_tensor, hv6, hd6, hm6]
    have e7 : get_tensor st dec ("model.layers.1.self_attn.k_proj.weight")
        = Except.error
            (LoadError.missingTensor ("model.layers.1.self_attn.k_proj.weight")) := by
      simp only [get_tensor, hmiss]
    rw [from_safetensors]
    simp only [e1, e2, e3, e4, e5, e6, e7, except_bind_ok, except_bind_error]
  · intro name h
    simp only [get_tensor, h]
  · intro name v h hd
    simp only [get_tensor, h, if_neg hd]

/-- C9 witness: loading from the concrete bundle that lacks exactly
`"model.layers.1.self_attn.k_proj.weight"` fails with `MissingTensor` naming
exactly that key. -/
theorem c9_loader_failure_witness :
    from_safetensors bundleMissingK1 (fun l => l) { num_layers := 2 }
      = Except.error (LoadError.missingTensor ("model.layers.1.self_attn.k_proj.weight")) := by
  have h := c9_loader_failure bundleMissingK1 (fun l => l) { num_layers := 2 }
    (by decide) (by decide)
    (by
      intro n hn
      fin_cases hn <;>
        exact ⟨{ dtype := Dtype.F32, shape := [1], data := [7, 7, 7, 7] }, by decide, rfl,
          by decide⟩)
  exact h.1
